import Mathlib

/-
Verification of the analytical core of the multi-area model theory module
(`multiarea_model/theory.py`).

The Python source is shallowly embedded below.  Populations are indexed by
`Fin n`; the connectivity matrices `K_matrix` and `J_matrix` have an extra
external-drive column, hence type `Fin n → Fin (n + 1) → ℝ`.  Python
exceptions are modelled with `Except Err`; functions that can mutate the
shared network object are modelled as state transformers returning the
updated `Net` alongside their result, mirroring the fact that a Python
exception propagates after any in-place writes already performed.

External collaborators that are not part of the source file
(`theory_helpers.nu0_fb`, `theory_helpers.d_nu_d_mu_fb_numeric`,
`theory_helpers.d_nu_d_sigma_fb_numeric`, `multiarea_helpers.create_mask`,
`Theory.replace_cc_input`'s helpers, `np.linalg.eig`, `np.random`) are
modelled as abstract data carried by the context structures; their doc
comments say exactly what they stand for.
-/

namespace MAM

noncomputable section

/-- Python exceptions raised by the embedded code. -/
inductive Err where
  | keyError (k : String)
  | attributeError (a : String)
  | assertionError
  | notImplementedError
  | valueError (m : String)
deriving DecidableEq

/-- The `single_neuron_dict` parameters consumed by `Theory.__init__`
(source lines 43-50). -/
structure SingleNeuronDict where
  E_L : ℝ
  V_th : ℝ
  V_reset : ℝ
  tau_m : ℝ
  tau_syn_ex : ℝ
  t_ref : ℝ

/-- The slice of the network collaborator that `Theory` reads:
`K_matrix`, `J_matrix` (populations × populations+1, last column =
external drive), `N_vec`, `add_DC_drive`, the neuron parameter `C_m` read
from `network.params`, and the `replace_cc` connection-parameter string. -/
structure Net (n : ℕ) where
  K_matrix : Fin n → Fin (n + 1) → ℝ
  J_matrix : Fin n → Fin (n + 1) → ℝ
  N_vec : Fin n → ℝ
  add_DC_drive : Fin n → ℝ
  C_m : ℝ
  replace_cc : String

/-- The `Theory` object's own data: its neuron parameters, input and
integration parameters, and the external collaborators it calls.

* `nu0_fb` models `theory_helpers.nu0_fb` (not under src):
  arguments `(mu, sigma, tau_m, tau_syn, t_ref, theta, V_reset)`.
* `d_nu_d_mu_fb_numeric` and `d_nu_d_sigma_fb_numeric` model the
  derivative operators of `theory_helpers` (not under src), with the
  argument order used at the call sites
  `(tau_m, tau_syn, t_ref, V_th, V_reset, mu, sigma)`.
* `eig` models `np.linalg.eig` (external library), returning the list of
  eigenvalues as (real part, imaginary part) pairs.
* `ccMask` — Modelled from the spec: the boolean mask
  `create_mask(self.network.structure, cortico_cortical=True,
  external=False)` built by `multiarea_helpers.create_mask`, which is not
  under src; it selects the cortico-cortical entries of `K`.
* `replace_cc_input` — Modelled from the spec: the method
  `Theory.replace_cc_input` computes the surrogate `(mu_CC, sigma2_CC)`
  from the override rates and the network's current `K_matrix`/`J_matrix`;
  its body depends on `create_mask`, `create_vector_mask`,
  `dict_to_vector`, the structure map and a rate file, none of which are
  under src, so it is modelled as an abstract function of the current
  network state. -/
structure TheoryCtx (n : ℕ) where
  single_neuron_dict : SingleNeuronDict
  rate_ext : ℝ
  dt : ℝ
  T : ℝ
  nu0_fb : ℝ → ℝ → ℝ → ℝ → ℝ → ℝ → ℝ → ℝ
  d_nu_d_mu_fb_numeric : ℝ → ℝ → ℝ → ℝ → ℝ → ℝ → ℝ → ℝ
  d_nu_d_sigma_fb_numeric : ℝ → ℝ → ℝ → ℝ → ℝ → ℝ → ℝ → ℝ
  eig : List (List ℝ) → List (ℝ × ℝ)
  ccMask : Fin n → Fin (n + 1) → Bool
  replace_cc_input : Net n → (Fin n → ℝ) × (Fin n → ℝ)

/-- The dictionary `self.NP` built by `Theory.__init__` (source lines
44-50).  Note that the threshold is stored under the key `"theta"`
(as `V_th - E_L`); there is no key `"V_th"`. -/
def TheoryCtx.NP {n : ℕ} (th : TheoryCtx n) : String → Option ℝ
  | "theta" => some (th.single_neuron_dict.V_th - th.single_neuron_dict.E_L)
  | "V_reset" => some (th.single_neuron_dict.V_reset - th.single_neuron_dict.E_L)
  | "tau_m" => some th.single_neuron_dict.tau_m
  | "tau_syn" => some th.single_neuron_dict.tau_syn_ex
  | "t_ref" => some th.single_neuron_dict.t_ref
  | "tau" => some 1
  | _ => none

/-- The test on `self.network.params['connection_params']['replace_cc']`
performed in `mu_sigma` (source lines 345-346): true exactly for the two
stationary Poisson override modes. -/
def isOverride {n : ℕ} (net : Net n) : Bool :=
  net.replace_cc = "hom_poisson_stat" || net.replace_cc = "het_poisson_stat"

/-- `K` after the optional matrix filter (source lines 337-344): with a
filter, a local copy zeroed outside the filter; without, the shared
`K_matrix` itself. -/
def Kfiltered {n : ℕ} (net : Net n) (matrix_filter : Option (Fin n → Fin (n + 1) → Bool)) :
    Fin n → Fin (n + 1) → ℝ :=
  match matrix_filter with
  | some mf => fun i j => if mf i j then net.K_matrix i j else 0
  | none => net.K_matrix

/-- `J` after the optional matrix filter (source lines 337-344). -/
def Jfiltered {n : ℕ} (net : Net n) (matrix_filter : Option (Fin n → Fin (n + 1) → Bool)) :
    Fin n → Fin (n + 1) → ℝ :=
  match matrix_filter with
  | some mf => fun i j => if mf i j then net.J_matrix i j else 0
  | none => net.J_matrix

/-- `K` after the cortico-cortical zeroing `K[mask] = 0.` of source line
349, applied only in the override modes. -/
def Kzeroed {n : ℕ} (th : TheoryCtx n) (net : Net n)
    (matrix_filter : Option (Fin n → Fin (n + 1) → Bool)) : Fin n → Fin (n + 1) → ℝ :=
  if isOverride net then
    fun i j => if th.ccMask i j then 0 else Kfiltered net matrix_filter i j
  else Kfiltered net matrix_filter

/-- `mu_CC` of source lines 347-351: the override surrogate mean, or zero
when no override is configured. -/
def muCCOf {n : ℕ} (th : TheoryCtx n) (net : Net n) : Fin n → ℝ :=
  if isOverride net then (th.replace_cc_input net).1 else fun _ => 0

/-- `sigma2_CC` of source lines 347-352. -/
def sigma2CCOf {n : ℕ} (th : TheoryCtx n) (net : Net n) : Fin n → ℝ :=
  if isOverride net then (th.replace_cc_input net).2 else fun _ => 0

/-- The extended rate vector of source line 356:
`np.hstack((rates, self.params['input_params']['rate_ext']))`. -/
def ratesExt {n : ℕ} (th : TheoryCtx n) (rates : Fin n → ℝ) : Fin (n + 1) → ℝ :=
  Fin.snoc rates th.rate_ext

/-- The mean computed by `mu_sigma` (source lines 353-365):
`mu = NP['tau_m'] * 1e-3 * dot(K*J, rates_ext) + mu_CC
 + NP['tau_m'] / C_m * add_DC_drive`, where `rates_ext` is the rate
vector with the configured external rate appended (`external=True`). -/
def muOf {n : ℕ} (th : TheoryCtx n) (net : Net n) (rates : Fin n → ℝ)
    (matrix_filter : Option (Fin n → Fin (n + 1) → Bool)) : Fin n → ℝ :=
  fun i =>
    th.single_neuron_dict.tau_m * 1e-3 *
        (∑ j, Kzeroed th net matrix_filter i j * Jfiltered net matrix_filter i j *
          ratesExt th rates j) +
      muCCOf th net i +
      th.single_neuron_dict.tau_m / net.C_m * net.add_DC_drive i

/-- The variance computed by `mu_sigma` (source lines 354-366):
`sigma2 = NP['tau_m'] * 1e-3 * dot(K*J**2, rates_ext) + sigma2_CC`. -/
def sigma2Of {n : ℕ} (th : TheoryCtx n) (net : Net n) (rates : Fin n → ℝ)
    (matrix_filter : Option (Fin n → Fin (n + 1) → Bool)) : Fin n → ℝ :=
  fun i =>
    th.single_neuron_dict.tau_m * 1e-3 *
        (∑ j, Kzeroed th net matrix_filter i j *
          (Jfiltered net matrix_filter i j * Jfiltered net matrix_filter i j) *
          ratesExt th rates j) +
      sigma2CCOf th net i

/-- `sigma = np.sqrt(sigma2)` (source line 367). -/
def sigmaOf {n : ℕ} (th : TheoryCtx n) (net : Net n) (rates : Fin n → ℝ)
    (matrix_filter : Option (Fin n → Fin (n + 1) → Bool)) : Fin n → ℝ :=
  fun i => Real.sqrt (sigma2Of th net rates matrix_filter i)

/-- The network state after a `mu_sigma` call.  When no matrix filter is
supplied, `K` and `J` alias the shared matrices (source lines 342-344),
so the zeroing `K[mask] = 0.` of line 349 writes through to the shared
`K_matrix`; with a matrix filter, lines 338-341 take copies and the
shared state is untouched.  `J` is never written in `mu_sigma`. -/
def netAfter {n : ℕ} (th : TheoryCtx n) (net : Net n)
    (matrix_filter : Option (Fin n → Fin (n + 1) → Bool)) : Net n :=
  if isOverride net && matrix_filter.isNone then
    { net with K_matrix := fun i j => if th.ccMask i j then 0 else net.K_matrix i j }
  else net

/-- `Theory.mu_sigma` (source lines 331-369).  The `external=False`
branch evaluates `self.dim_ext`, an attribute that is never assigned
anywhere in the class, so it raises `AttributeError`; the zeroing of the
override branch has already happened at that point, which the returned
state reflects. -/
def mu_sigma {n : ℕ} (th : TheoryCtx n) (net : Net n) (rates : Fin n → ℝ)
    (external : Bool) (matrix_filter : Option (Fin n → Fin (n + 1) → Bool)) :
    Except Err ((Fin n → ℝ) × (Fin n → ℝ)) × Net n :=
  if external then
    (.ok (muOf th net rates matrix_filter, sigmaOf th net rates matrix_filter),
      netAfter th net matrix_filter)
  else
    (.error (.attributeError "dim_ext"), netAfter th net matrix_filter)

/-- `Theory.Phi` (source lines 265-281).  The `parallel` flag only
chooses between `pool.map` and a list comprehension, which both apply
`nu0_fb` elementwise in population order, so it does not appear here.
The Python defaults are `return_mu_sigma=False, return_leak=True`.
The second component models the optional `(mu, sigma)` part of the
returned tuple (`return_mu_sigma=True`). -/
def Phi {n : ℕ} (th : TheoryCtx n) (net : Net n) (rates : Fin n → ℝ)
    (return_mu_sigma return_leak : Bool) :
    Except Err ((Fin n → ℝ) × Option ((Fin n → ℝ) × (Fin n → ℝ))) × Net n :=
  match mu_sigma th net rates true none with
  | (.error e, net1) => (.error e, net1)
  | (.ok (mu, sigma), net1) =>
    let new0 : Fin n → ℝ := fun i =>
      th.nu0_fb (mu i) (sigma i) (th.single_neuron_dict.tau_m * 1e-3)
        (th.single_neuron_dict.tau_syn_ex * 1e-3) (th.single_neuron_dict.t_ref * 1e-3)
        (th.single_neuron_dict.V_th - th.single_neuron_dict.E_L)
        (th.single_neuron_dict.V_reset - th.single_neuron_dict.E_L)
    let new_rates : Fin n → ℝ := if return_leak then fun i => new0 i - rates i else new0
    (.ok (new_rates, if return_mu_sigma then some (mu, sigma) else none), net1)

/-- The value `Φ(ν)` of the transfer function applied population-wise to
the statistics of `rates`: the first component of
`Phi ... return_leak:=False` on the unmutated state. -/
def PhiVal {n : ℕ} (th : TheoryCtx n) (net : Net n) (rates : Fin n → ℝ) : Fin n → ℝ :=
  fun i =>
    th.nu0_fb (muOf th net rates none i) (sigmaOf th net rates none i)
      (th.single_neuron_dict.tau_m * 1e-3)
      (th.single_neuron_dict.tau_syn_ex * 1e-3) (th.single_neuron_dict.t_ref * 1e-3)
      (th.single_neuron_dict.V_th - th.single_neuron_dict.E_L)
      (th.single_neuron_dict.V_reset - th.single_neuron_dict.E_L)

/-- One step of the integration loop of `integrate_siegert_python`
(source lines 231-242), with `tau = self.NP['tau_m'] * 1e-3` (line 200):
`k1 = Phi(y)` (with the default `return_leak=True`, so `k1 = Φ(y) - y`),
`k2 = Phi(y + dt*1e-3/tau/2 * k1)`, `k3 = Phi(y + dt*1e-3/tau/2 * k2)`,
`k4 = Phi(y + dt*1e-3/tau * k3)`, and
`y' = y + dt*1e-3/6 * (k1 + 2 k2 + 2 k3 + k4) / tau`.  The network state
is threaded through the four `Phi` calls. -/
def rk4Step {n : ℕ} (th : TheoryCtx n) (net : Net n) (y : Fin n → ℝ) :
    Except Err (Fin n → ℝ) × Net n :=
  let tau := th.single_neuron_dict.tau_m * 1e-3
  match Phi th net y true true with
  | (.error e, net1) => (.error e, net1)
  | (.ok (k1, _), net1) =>
    match Phi th net1 (fun i => y i + th.dt * 1e-3 / tau / 2 * k1 i) false true with
    | (.error e, net2) => (.error e, net2)
    | (.ok (k2, _), net2) =>
      match Phi th net2 (fun i => y i + th.dt * 1e-3 / tau / 2 * k2 i) false true with
      | (.error e, net3) => (.error e, net3)
      | (.ok (k3, _), net3) =>
        match Phi th net3 (fun i => y i + th.dt * 1e-3 / tau * k3 i) false true with
        | (.error e, net4) => (.error e, net4)
        | (.ok (k4, _), net4) =>
          (.ok (fun i =>
              y i + th.dt * 1e-3 / 6 * (k1 i + 2 * k2 i + 2 * k3 i + k4 i) / tau),
            net4)

/-- The trajectory `y[0], y[1], ...` produced by iterating `rk4Step` a
given number of times (the integration loop of source lines 231-242). -/
def rk4Traj {n : ℕ} (th : TheoryCtx n) : ℕ → Net n → (Fin n → ℝ) →
    Except Err (List (Fin n → ℝ)) × Net n
  | 0, net, y => (.ok [y], net)
  | k + 1, net, y =>
    match rk4Step th net y with
    | (.error e, net1) => (.error e, net1)
    | (.ok y1, net1) =>
      match rk4Traj th k net1 y1 with
      | (.error e, net2) => (.error e, net2)
      | (.ok tl, net2) => (.ok (y :: tl), net2)

/-- The number of time points `len(np.arange(0, T, dt))` of source line
226, which equals `⌈T / dt⌉` for positive `dt`. -/
def tLen {n : ℕ} (th : TheoryCtx n) : ℕ :=
  Nat.ceil (th.T / th.dt)

/-- The body of `Theory.integrate_siegert_python` (source lines 226-242)
for one initial condition `y0`: `len(t) - 1` Runge-Kutta steps.  The
initial-condition generator that feeds this loop is modelled separately
by `initial_rates`. -/
def integrate_siegert_python {n : ℕ} (th : TheoryCtx n) (net : Net n) (y0 : Fin n → ℝ) :
    Except Err (List (Fin n → ℝ)) × Net n :=
  rk4Traj th (tLen th - 1) net y0

/-- Follows the spec's words (4.3): one step of the explicit 4th-order
Runge-Kutta scheme for `dν/dt = f(ν)` with `f(y) = (Φ(y) - y)/τ_m`:
`k1 = f(y)`, `k2 = f(y + (h/2)k1)`, `k3 = f(y + (h/2)k2)`,
`k4 = f(y + h·k3)`, `y' = y + (h/6)(k1 + 2k2 + 2k3 + k4)`. -/
def rk4SpecStep {n : ℕ} (f : (Fin n → ℝ) → Fin n → ℝ) (h : ℝ) (y : Fin n → ℝ) :
    Fin n → ℝ :=
  let k1 := f y
  let k2 := f (fun i => y i + h / 2 * k1 i)
  let k3 := f (fun i => y i + h / 2 * k2 i)
  let k4 := f (fun i => y i + h * k3 i)
  fun i => y i + h / 6 * (k1 i + 2 * k2 i + 2 * k3 i + k4 i)

/-- Follows the spec's words (4.3): the trajectory obtained by iterating
the Runge-Kutta step `rk4SpecStep`. -/
def rk4SpecTraj {n : ℕ} (f : (Fin n → ℝ) → Fin n → ℝ) (h : ℝ) :
    ℕ → (Fin n → ℝ) → List (Fin n → ℝ)
  | 0, y => [y]
  | k + 1, y => y :: rk4SpecTraj f h k (rk4SpecStep f h y)

/-- Modelled from the spec / numpy's documented contract: the global
`np.random` generator used by `Theory.initial_rates`.  `seed` sets the
generator state as a function of the seed alone (discarding whatever the
state was before); `rand1` draws one number uniform in `[0, 1)` and
advances the state deterministically. -/
structure NumpyRandom (S : Type) where
  seed : ℕ → S
  rand1 : S → ℝ × S
  rand1_nonneg : ∀ s, 0 ≤ (rand1 s).1
  rand1_lt_one : ∀ s, (rand1 s).1 < 1

/-- `np.random.rand(dim)`: `dim` consecutive draws. -/
def randVec {S : Type} (R : NumpyRandom S) : ℕ → S → List ℝ × S
  | 0, s => ([], s)
  | d + 1, s =>
    let p := R.rand1 s
    let q := randVec R d p.2
    (p.1 :: q.1, q.2)

/-- The loop of `Theory.initial_rates` (source lines 326-329): yield
`rate_max * np.random.rand(dim)` until `num_iter` vectors are produced. -/
def initialRatesFrom {S : Type} (R : NumpyRandom S) (dim : ℕ) (rate_max : ℝ) :
    ℕ → S → List (List ℝ)
  | 0, _ => []
  | k + 1, s =>
    let p := randVec R dim s
    (p.1.map fun x => rate_max * x) :: initialRatesFrom R dim rate_max k p.2

/-- `Theory.initial_rates` (source lines 321-329): the generator first
calls `np.random.seed(rng_seed)` — replacing whatever global generator
state `s0` was current — and then yields `num_iter` vectors
`rate_max * np.random.rand(dim)`. -/
def initial_rates {S : Type} (R : NumpyRandom S) (s0 : S) (num_iter dim : ℕ)
    (rate_max : ℝ) (rng_seed : ℕ) : List (List ℝ) :=
  initialRatesFrom R dim rate_max num_iter (R.seed rng_seed)

/-- The connection-probability matrix of `stability_matrix` (source lines
389-396): with `N_pre[i,j] = N[j]` and `N_post[i,j] = N[i]`,
`C = 1 - (1 - 1/(N_pre*N_post))**(K*N_post)` elementwise, so
`C[i,j] = 1 - (1 - 1/(N[j]*N[i]))^(K[i,j]*N[i])` (real exponent). -/
def connProb {m : ℕ} (N : Fin m → ℝ) (K : Fin m → Fin m → ℝ) :
    Fin m → Fin m → ℝ :=
  fun i j => 1 - (1 - 1 / (N j * N i)) ^ (K i j * N i)

/-- Follows the claim's words: the connection probability
`C[i,j] = 1 - (1 - 1/(N_i * N_j))^(K[i,j] * N_j)`, with the source
population size `N_j` in the exponent. -/
def connProbSpec {m : ℕ} (N : Fin m → ℝ) (K : Fin m → Fin m → ℝ) :
    Fin m → Fin m → ℝ :=
  fun i j => 1 - (1 - 1 / (N i * N j)) ^ (K i j * N j)

/-- A numpy value appearing in the tuple returned by `stability_matrix`
with `full_output=True`: a vector or a matrix. -/
inductive PyVal where
  | vec (v : List ℝ)
  | mat (m : List (List ℝ))

/-- The value returned by `stability_matrix`: either the matrix `M` alone
(`full_output=False`) or a tuple of values (`full_output=True`). -/
inductive StabRet where
  | single (M : List (List ℝ))
  | tuple (vals : List PyVal)

/-- A vector rendered as a list in index order. -/
def toL {m : ℕ} (v : Fin m → ℝ) : List ℝ :=
  (List.finRange m).map v

/-- A matrix rendered as a row-major list of rows. -/
def toLL {m : ℕ} (A : Fin m → Fin m → ℝ) : List (List ℝ) :=
  (List.finRange m).map fun i => (List.finRange m).map fun j => A i j

/-- Boolean-mask indexing `v[f]` of a vector: the entries whose mask is
true, in index order. -/
def filteredList {n : ℕ} (f : Fin n → Bool) (v : Fin n → ℝ) : List ℝ :=
  ((List.finRange n).filter fun i => f i).map v

/-- Boolean-mask indexing `A[mf]` of a matrix: the flat row-major list of
entries whose mask is true. -/
def maskedFlatten {n : ℕ} (A : Fin n → Fin (n + 1) → ℝ)
    (mf : Fin n → Fin (n + 1) → Bool) : List ℝ :=
  (List.finRange n).flatMap fun i =>
    ((List.finRange (n + 1)).filter fun j => mf i j).map fun j => A i j

/-- The tuple literal of source line 430:
`return M, slope, slope_sigma, M, C, V, G_N, J, N_pre` — nine values. -/
def stabilityFullVals {m : ℕ} (M : Fin m → Fin m → ℝ) (slope slope_sigma : Fin m → ℝ)
    (C V G_N J N_pre : Fin m → Fin m → ℝ) : List PyVal :=
  [.mat (toLL M), .vec (toL slope), .vec (toL slope_sigma), .mat (toLL M),
    .mat (toLL C), .mat (toLL V), .mat (toLL G_N), .mat (toLL J), .mat (toLL N_pre)]

/-- The part of `Theory.stability_matrix` after the filter handling
(source lines 389-432), shared by the filtered and unfiltered branches:
`N`, `K`, `J` are the (possibly restricted) population sizes and matrices
(already without the external column), `vf` the optional vector filter
applied to `mu`/`sigma` at lines 399-401.

The slope comprehensions of lines 402-417 read `self.NP['V_th']` while
building the arguments of the derivative operators; that key does not
exist in the dictionary built by `__init__` (which stores `'theta'`), so
for a nonempty population range the comprehension raises
`KeyError('V_th')` at its first iteration — after `mu_sigma` has already
run.  For an empty range the comprehension never evaluates its body and
the remaining lines produce empty arrays.  The code below the `V_th`
lookup is consequently unreachable for `m ≠ 0`; it is transcribed anyway
(with list accesses defaulting to 0 where Python would raise
`IndexError` on a shape mismatch, a situation that the `V_th` failure
precludes). -/
def stabilityCore {n : ℕ} (th : TheoryCtx n) (net : Net n) (rates : Fin n → ℝ)
    (m : ℕ) (N : Fin m → ℝ) (K J : Fin m → Fin m → ℝ)
    (vf : Option (Fin n → Bool)) (full_output : Bool) :
    Except Err StabRet × Net n :=
  let N_pre : Fin m → Fin m → ℝ := fun _ j => N j
  let C := connProb N K
  match mu_sigma th net rates true none with
  | (.error e, net1) => (.error e, net1)
  | (.ok (mu0, sigma0), net1) =>
    let muL : List ℝ :=
      match vf with
      | some f => filteredList f mu0
      | none => toL mu0
    let sigmaL : List ℝ :=
      match vf with
      | some f => filteredList f sigma0
      | none => toL sigma0
    if m = 0 then
      (if full_output then
        (.ok (.tuple (stabilityFullVals (fun _ _ => 0) (fun _ => 0) (fun _ => 0)
          C (fun _ _ => 0) (fun _ _ => 0) J N_pre)), net1)
      else (.ok (.single (toLL (fun _ _ : Fin m => (0 : ℝ)))), net1))
    else
      match th.NP "V_th" with
      | none => (.error (.keyError "V_th"), net1)
      | some V_th =>
        let V_reset := (th.NP "V_reset").getD 0
        let tau_m := th.single_neuron_dict.tau_m
        let tau_syn := th.single_neuron_dict.tau_syn_ex
        let t_ref := th.single_neuron_dict.t_ref
        let slope : Fin m → ℝ := fun ii =>
          th.d_nu_d_mu_fb_numeric (1e-3 * tau_m) (1e-3 * tau_syn) (1e-3 * t_ref)
            V_th V_reset (muL.getD ii.val 0) (sigmaL.getD ii.val 0)
        let slope_sigma : Fin m → ℝ := fun ii =>
          th.d_nu_d_sigma_fb_numeric (1e-3 * tau_m) (1e-3 * tau_syn) (1e-3 * t_ref)
            V_th V_reset (muL.getD ii.val 0) (sigmaL.getD ii.val 0) *
            (1 / (2 * sigmaL.getD ii.val 0))
        let slope_matrix : Fin m → Fin m → ℝ := fun i _ => slope i
        let slope_sigma_matrix : Fin m → Fin m → ℝ := fun i _ => slope_sigma i
        let V : Fin m → Fin m → ℝ := fun i j => C i j * (1 - C i j)
        let G : Fin m → Fin m → ℝ := fun i j =>
          (tau_m * 1e-3) ^ (2 : ℕ) *
            (slope_matrix i j * J i j + slope_sigma_matrix i j * J i j ^ (2 : ℕ)) ^ (2 : ℕ)
        let G_N : Fin m → Fin m → ℝ := fun i j => N_pre i j * G i j
        let M : Fin m → Fin m → ℝ := fun i j => G_N i j * V i j
        if full_output then
          (.ok (.tuple (stabilityFullVals M slope slope_sigma C V G_N J N_pre)), net1)
        else (.ok (.single (toLL M)), net1)

/-- `Theory.stability_matrix` (source lines 371-432).  With a matrix
filter, line 377 asserts that a vector filter is present and line 378
asserts the size compatibility `N[vf].size * (N[vf].size + 1) ==
K[mf].size`; the masked flat matrices are then reshaped to
`(N.size, N.size + 1)` and their external column dropped.  Without a
matrix filter, the full `N_vec` and the matrices without their last
column are used — the vector filter, if any, is applied only to
`mu`/`sigma` later (no assertion rejects a vector filter supplied without
a matrix filter). -/
def stability_matrix {n : ℕ} (th : TheoryCtx n) (net : Net n) (rates : Fin n → ℝ)
    (matrix_filter : Option (Fin n → Fin (n + 1) → Bool))
    (vector_filter : Option (Fin n → Bool)) (full_output : Bool) :
    Except Err StabRet × Net n :=
  match matrix_filter with
  | some mf =>
    match vector_filter with
    | none => (.error .assertionError, net)
    | some vf =>
      let m := (filteredList vf net.N_vec).length
      if m * (m + 1) = (maskedFlatten net.K_matrix mf).length then
        stabilityCore th net rates m
          (fun i => (filteredList vf net.N_vec).getD i.val 0)
          (fun i j => (maskedFlatten net.K_matrix mf).getD (i.val * (m + 1) + j.val) 0)
          (fun i j => (maskedFlatten net.J_matrix mf).getD (i.val * (m + 1) + j.val) 0)
          (some vf) full_output
      else (.error .assertionError, net)
  | none =>
    stabilityCore th net rates n net.N_vec
      (fun i j => net.K_matrix i j.castSucc) (fun i j => net.J_matrix i j.castSucc)
      vector_filter full_output

/-- The tuple unpacking of source lines 440-441:
`(M, slope, slope_sigma, M, EV, C, V, G_N) = self.stability_matrix(...)`
binds exactly eight names, so a tuple of any other length raises
`ValueError` (too many / not enough values to unpack). -/
def lambdaUnpack (vals : List PyVal) :
    Except Err (PyVal × PyVal × PyVal × PyVal × PyVal × PyVal × PyVal × PyVal) :=
  match vals with
  | [a, b, c, d, e, f, g, h] => .ok (a, b, c, d, e, f, g, h)
  | _ => .error (.valueError "unpack")

/-- `max(real part of eigenvalues)` of source line 451 (junk 0 for an
empty list, where numpy would raise). -/
def maxRealPart (ev : List (ℝ × ℝ)) : ℝ :=
  match (ev.map Prod.fst).max? with
  | some x => x
  | none => 0

/-- View a `PyVal` as a matrix (used where the source passes the unpacked
`M`, necessarily a matrix, to `np.linalg.eig`). -/
def PyVal.asMat : PyVal → List (List ℝ)
  | .mat m => m
  | .vec _ => []

/-- The value returned by `lambda_max`: the scalar
`sqrt(max(Re(eig(M))))`, or in full-output mode the tuple of source line
453 `(lambda_max, slope, slope_sigma, M, EV, C, V)` built from the names
bound by the (mismatched) unpacking, with `EV` recomputed by
`np.linalg.eig`. -/
inductive LMRet where
  | scalar (lam : ℝ)
  | full (lam : ℝ) (slope slope_sigma M : PyVal) (EV : List (ℝ × ℝ)) (C V : PyVal)

/-- `Theory.lambda_max` (source lines 434-455).  In full-output mode the
eight-name unpacking is applied to the value of
`stability_matrix(..., full_output=True)` (a nine-tuple); the second
binding of `M` (position 3) wins, the name `EV` bound at position 4 is
overwritten by `np.linalg.eig(M)` at line 450. -/
def lambda_max {n : ℕ} (th : TheoryCtx n) (net : Net n) (rates : Fin n → ℝ)
    (matrix_filter : Option (Fin n → Fin (n + 1) → Bool))
    (vector_filter : Option (Fin n → Bool)) (full_output : Bool) :
    Except Err LMRet × Net n :=
  if full_output then
    match stability_matrix th net rates matrix_filter vector_filter true with
    | (.error e, net1) => (.error e, net1)
    | (.ok (.single _), net1) => (.error (.valueError "unpack"), net1)
    | (.ok (.tuple vals), net1) =>
      match lambdaUnpack vals with
      | .error e => (.error e, net1)
      | .ok (_, slope, slope_sigma, M4, _, C, V, _) =>
        let EV := th.eig M4.asMat
        (.ok (.full (Real.sqrt (maxRealPart EV)) slope slope_sigma M4 EV C V), net1)
  else
    match stability_matrix th net rates matrix_filter vector_filter false with
    | (.error e, net1) => (.error e, net1)
    | (.ok (.single M), net1) =>
      let EV := th.eig M
      (.ok (.scalar (Real.sqrt (maxRealPart EV))), net1)
    | (.ok (.tuple _), net1) => (.error (.valueError "unpack"), net1)

/-
Concrete instances used by counterexamples and witnesses.
-/

/-- A concrete `single_neuron_dict`:
`E_L = 0, V_th = 15, V_reset = 0, tau_m = 10, tau_syn_ex = 0.5, t_ref = 2`. -/
def sndW : SingleNeuronDict := ⟨0, 15, 0, 10, 0.5, 2⟩

/-- A concrete one-population theory context; the abstract transfer
function and derivative operators are instantiated with simple total
functions, the cortico-cortical mask selects the first column. -/
def thW : TheoryCtx 1 where
  single_neuron_dict := sndW
  rate_ext := 8
  dt := 0.1
  T := 1
  nu0_fb := fun mu sigma _ _ _ _ _ => mu + sigma
  d_nu_d_mu_fb_numeric := fun _ _ _ _ _ mu sigma => mu * sigma
  d_nu_d_sigma_fb_numeric := fun _ _ _ _ _ mu sigma => mu - sigma
  eig := fun _ => []
  ccMask := fun _ j => decide (j.val = 0)
  replace_cc_input := fun _ => (fun _ => 1, fun _ => 1)

/-- A concrete one-population network configured with the homogeneous
stationary cortico-cortical override. -/
def netHom : Net 1 where
  K_matrix := fun _ _ => 1
  J_matrix := fun _ _ => 1
  N_vec := fun _ => 10
  add_DC_drive := fun _ => 0
  C_m := 250
  replace_cc := "hom_poisson_stat"

/-- `netHom` reconfigured with the unsupported non-stationary
heterogeneous override mode. -/
def netNonstat : Net 1 :=
  { netHom with replace_cc := "het_current_nonstat" }

/-- `netHom` reconfigured with the cortico-cortical override disabled. -/
def netOff : Net 1 :=
  { netHom with replace_cc := "none" }

/-- A concrete rate vector. -/
def ratesW : Fin 1 → ℝ := fun _ => 0

/-- Concrete population sizes `N = [1, 2]` for the connection-probability
counterexample. -/
def N8 : Fin 2 → ℝ := ![1, 2]

/-- Concrete in-degrees with `K[0,1] = 1` and all other entries zero. -/
def K8 : Fin 2 → Fin 2 → ℝ := ![![0, 1], ![0, 0]]

/-- Concrete positive population sizes for the amended
connection-probability witness. -/
def N8w : Fin 2 → ℝ := fun _ => 2

/-- A concrete deterministic instance of the random-generator model:
state is a counter, every draw returns `0 ∈ [0, 1)`. -/
def R9 : NumpyRandom ℕ where
  seed := id
  rand1 := fun s => (0, s + 1)
  rand1_nonneg := fun _ => le_refl 0
  rand1_lt_one := fun _ => zero_lt_one

/-
Helper lemmas.
-/

/-- Evaluating the `NP` dictionary at the keys that exist. -/
theorem NP_tau_m {n : ℕ} (th : TheoryCtx n) :
    th.NP "tau_m" = some th.single_neuron_dict.tau_m := rfl

/-- The key `"V_th"` is absent from `NP`. -/
theorem NP_V_th {n : ℕ} (th : TheoryCtx n) : th.NP "V_th" = none := rfl

/-- Without an active override, `mu_sigma` leaves the network state
unchanged. -/
theorem netAfter_off {n : ℕ} {th : TheoryCtx n} {net : Net n}
    (hcc : isOverride net = false) (mf : Option (Fin n → Fin (n + 1) → Bool)) :
    netAfter th net mf = net := by
  simp [netAfter, hcc]

/-- `Phi` unfolded: it always succeeds (its `mu_sigma` call uses
`external=True`), returns the transfer-function values with the leak
optionally subtracted, and leaves the state `mu_sigma` left. -/
theorem Phi_eq {n : ℕ} (th : TheoryCtx n) (net : Net n) (rates : Fin n → ℝ) (ms rl : Bool) :
    Phi th net rates ms rl =
      (.ok ((if rl then fun i => PhiVal th net rates i - rates i else PhiVal th net rates),
        if ms then some (muOf th net rates none, sigmaOf th net rates none) else none),
       netAfter th net none) := rfl

/-- `Phi` with `return_leak=True` under a disabled override: pure in the
network state. -/
theorem Phi_off {n : ℕ} {th : TheoryCtx n} {net : Net n} (hcc : isOverride net = false)
    (rates : Fin n → ℝ) (ms : Bool) :
    Phi th net rates ms true =
      (.ok ((fun i => PhiVal th net rates i - rates i),
        if ms then some (muOf th net rates none, sigmaOf th net rates none) else none),
       net) := by
  rw [Phi_eq, netAfter_off hcc]
  rfl

/-- The algebraic heart of the Runge-Kutta check: the source combination
`y + dt/6 (k1 + 2k2 + 2k3 + k4)/τ` of the leak-subtracted `Phi` values
`k_i = Φ(z_i) - z_i` taken at the source's intermediate points equals the
textbook RK4 step for `f(z) = (Φ(z) - z)/τ` with step `h`. -/
theorem rk4_step_glue {n : ℕ} (P : (Fin n → ℝ) → Fin n → ℝ) (h τ : ℝ)
    (y z2 z3 z4 : Fin n → ℝ)
    (h2 : z2 = fun i => y i + h / τ / 2 * (P y i - y i))
    (h3 : z3 = fun i => y i + h / τ / 2 * (P z2 i - z2 i))
    (h4 : z4 = fun i => y i + h / τ * (P z3 i - z3 i)) :
    (fun i => y i + h / 6 *
        ((P y i - y i) + 2 * (P z2 i - z2 i) + 2 * (P z3 i - z3 i) + (P z4 i - z4 i)) / τ)
      = rk4SpecStep (fun z i => (P z i - z i) / τ) h y := by
  have e2 : ∀ i, y i + h / 2 * ((P y i - y i) / τ) = z2 i := by
    intro i; simp only [h2]; ring
  have e3 : ∀ i, y i + h / 2 * ((P z2 i - z2 i) / τ) = z3 i := by
    intro i; simp only [h3]; ring
  have e4 : ∀ i, y i + h * ((P z3 i - z3 i) / τ) = z4 i := by
    intro i; simp only [h4]; ring
  simp only [rk4SpecStep]
  simp only [e2, e3, e4]
  funext i
  ring

/-- One source integration step under a disabled override equals the
textbook RK4 step for `f(z) = (Φ(z) - z)/τ` with step `dt * 1e-3`. -/
theorem rk4Step_off {n : ℕ} {th : TheoryCtx n} {net : Net n} (hcc : isOverride net = false)
    (y : Fin n → ℝ) :
    rk4Step th net y =
      (.ok (rk4SpecStep
        (fun z i => (PhiVal th net z i - z i) / (th.single_neuron_dict.tau_m * 1e-3))
        (th.dt * 1e-3) y), net) := by
  unfold rk4Step
  simp only [Phi_off hcc]
  exact congrArg (fun v => ((Except.ok v : Except Err (Fin n → ℝ)), net))
    (rk4_step_glue (PhiVal th net) (th.dt * 1e-3) (th.single_neuron_dict.tau_m * 1e-3)
      y _ _ _ rfl rfl rfl)

/-- The whole source integration loop under a disabled override produces
exactly the iterated textbook RK4 trajectory, without error and without
touching the network state. -/
theorem rk4Traj_off {n : ℕ} {th : TheoryCtx n} {net : Net n}
    (hcc : isOverride net = false) :
    ∀ (k : ℕ) (y : Fin n → ℝ),
      rk4Traj th k net y =
        (.ok (rk4SpecTraj
          (fun z i => (PhiVal th net z i - z i) / (th.single_neuron_dict.tau_m * 1e-3))
          (th.dt * 1e-3) k y), net) := by
  intro k
  induction k with
  | zero => intro y; rfl
  | succ k ih =>
    intro y
    simp only [rk4Traj, rk4Step_off hcc, ih]
    rfl

/-- A `k`-step RK4 trajectory lists `k + 1` states. -/
theorem rk4SpecTraj_length {n : ℕ} (f : (Fin n → ℝ) → Fin n → ℝ) (h : ℝ) :
    ∀ (k : ℕ) (y : Fin n → ℝ), (rk4SpecTraj f h k y).length = k + 1 := by
  intro k
  induction k with
  | zero => intro y; rfl
  | succ k ih => intro y; simp only [rk4SpecTraj, List.length_cons, ih]

/-- `np.random.rand(dim)` draws `dim` values, all in `[0, 1)`. -/
theorem randVec_spec {S : Type} (R : NumpyRandom S) :
    ∀ (d : ℕ) (s : S), ((randVec R d s).1).length = d
      ∧ ∀ x ∈ (randVec R d s).1, 0 ≤ x ∧ x < 1 := by
  intro d
  induction d with
  | zero => intro s; exact ⟨rfl, by intro x hx; cases hx⟩
  | succ d ih =>
    intro s
    refine ⟨by simpa [randVec] using (ih (R.rand1 s).2).1, ?_⟩
    intro x hx
    rw [randVec] at hx
    rcases List.mem_cons.mp hx with h | h
    · exact h ▸ ⟨R.rand1_nonneg s, R.rand1_lt_one s⟩
    · exact (ih (R.rand1 s).2).2 x h

/-- The initial-rates loop yields exactly `k` vectors, each of length
`dim` with entries in `[0, rate_max)`. -/
theorem initialRatesFrom_spec {S : Type} (R : NumpyRandom S) (dim : ℕ) (rate_max : ℝ)
    (hrm : 0 < rate_max) :
    ∀ (k : ℕ) (s : S), (initialRatesFrom R dim rate_max k s).length = k
      ∧ ∀ v ∈ initialRatesFrom R dim rate_max k s,
          v.length = dim ∧ ∀ x ∈ v, 0 ≤ x ∧ x < rate_max := by
  intro k
  induction k with
  | zero => intro s; exact ⟨rfl, by intro v hv; cases hv⟩
  | succ k ih =>
    intro s
    refine ⟨by simpa [initialRatesFrom] using (ih (randVec R dim s).2).1, ?_⟩
    intro v hv
    rw [initialRatesFrom] at hv
    rcases List.mem_cons.mp hv with h | h
    · subst h
      constructor
      · simpa using (randVec_spec R dim s).1
      · intro x hx
        rcases List.mem_map.mp hx with ⟨x0, hx0, hxeq⟩
        have hb := (randVec_spec R dim s).2 x0 hx0
        subst hxeq
        exact ⟨mul_nonneg hrm.le hb.1, by
          simpa [mul_comm] using mul_lt_of_lt_one_right hrm hb.2⟩
    · exact (ih (randVec R dim s).2).2 v h

/-
Claim theorems.
-/

/-- Claim C1 (code bug): `stability_matrix` is claimed to evaluate the
transfer-function derivatives and return `M = G_N · V`, consulting only
the neuron parameters stored at construction.  In fact every call with at
least one population raises `KeyError('V_th')`: the slope computation
reads `self.NP['V_th']`, but `__init__` stored the threshold under the
key `'theta'` (as `V_th - E_L`) and never under `'V_th'`. -/
theorem c1_stability_matrix_always_keyerror_Vth (n : ℕ) (th : TheoryCtx (n + 1))
    (net : Net (n + 1)) (rates : Fin (n + 1) → ℝ) (full_output : Bool) :
    (stability_matrix th net rates none none full_output).1 = .error (.keyError "V_th")
    ∧ th.NP "V_th" = none
    ∧ th.NP "theta" = some (th.single_neuron_dict.V_th - th.single_neuron_dict.E_L) :=
  ⟨rfl, rfl, rfl⟩

/-- Claim C2 (code bug): `mu_sigma` with `external=True` does return
`mu = τ_m·1e-3·(K∘J)·rates_ext + mu_CC + (τ_m/C_m)·DC` and
`sigma = sqrt(τ_m·1e-3·(K∘J²)·rates_ext + sigma2_CC)`, but the
`external=False` branch does not append a zero and return: it evaluates
`self.dim_ext`, an attribute never assigned anywhere in the class, and
raises `AttributeError` for every input. -/
theorem c2_mu_sigma_external_false_attribute_error (n : ℕ) (th : TheoryCtx n)
    (net : Net n) (rates : Fin n → ℝ) (mf : Option (Fin n → Fin (n + 1) → Bool)) :
    (mu_sigma th net rates false mf).1 = .error (.attributeError "dim_ext")
    ∧ (mu_sigma th net rates true mf).1 = .ok (muOf th net rates mf, sigmaOf th net rates mf) :=
  ⟨rfl, rfl⟩

/-- Claim C3 (code bug): `mu_sigma` is claimed never to mutate the shared
matrices.  With no matrix filter and an active stationary override, the
local name `K` aliases `self.network.K_matrix` and `K[mask] = 0.` zeroes
the cortico-cortical entries of the shared matrix in place: at this
concrete input the shared entry `K[0,0]` is `1` before the call and `0`
after it. -/
theorem c3_mu_sigma_mutates_shared_K_matrix :
    (mu_sigma thW netHom ratesW true none).2.K_matrix 0 0 ≠ netHom.K_matrix 0 0
    ∧ netHom.K_matrix 0 0 = 1
    ∧ (mu_sigma thW netHom ratesW true none).2.K_matrix 0 0 = 0 :=
  ⟨by change (0 : ℝ) ≠ 1; exact zero_ne_one, rfl, rfl⟩

/-- Claim C4, counterexample: with
`replace_cc = 'het_current_nonstat'`, `mu_sigma` does not raise any
configuration error — it returns `.ok` with the override contribution
silently zero (`mu_CC = sigma2_CC = 0`), i.e. the override is treated as
disabled. -/
theorem c4_counterexample_no_error_on_het_current_nonstat :
    netNonstat.replace_cc = "het_current_nonstat"
    ∧ (mu_sigma thW netNonstat ratesW true none).1 =
        .ok (muOf thW netNonstat ratesW none, sigmaOf thW netNonstat ratesW none)
    ∧ muCCOf thW netNonstat = (fun _ => 0)
    ∧ sigma2CCOf thW netNonstat = (fun _ => 0) :=
  ⟨rfl, rfl, rfl, rfl⟩

/-- Claim C4, amended: only the NEST-backed integrator rejects
`'het_current_nonstat'`; the statistics mapper `mu_sigma` (and with it
the Python fixed-point integration) silently treats this mode as "no
override": it returns the plain statistics with `mu_CC = sigma2_CC = 0`,
leaves the network untouched, and the RK4 integration runs to completion
instead of failing fast. -/
theorem c4_amended_silent_fallback (n : ℕ) (th : TheoryCtx n) (net : Net n)
    (rates : Fin n → ℝ) (mf : Option (Fin n → Fin (n + 1) → Bool))
    (h : net.replace_cc = "het_current_nonstat") :
    (mu_sigma th net rates true mf).1 = .ok (muOf th net rates mf, sigmaOf th net rates mf)
    ∧ (mu_sigma th net rates true mf).2 = net
    ∧ muCCOf th net = (fun _ => 0)
    ∧ sigma2CCOf th net = (fun _ => 0)
    ∧ (integrate_siegert_python th net rates).1 =
        .ok (rk4SpecTraj
          (fun z i => (PhiVal th net z i - z i) / (th.single_neuron_dict.tau_m * 1e-3))
          (th.dt * 1e-3) (tLen th - 1) rates) := by
  have hcc : isOverride net = false := by
    unfold isOverride
    rw [h]
    decide
  refine ⟨rfl, netAfter_off hcc mf, ?_, ?_, ?_⟩
  · simp [muCCOf, hcc]
  · simp [sigma2CCOf, hcc]
  · rw [integrate_siegert_python, rk4Traj_off hcc]

/-- Witness for the amended claim C4 at a concrete configuration. -/
theorem c4_amended_silent_fallback_witness :
    netNonstat.replace_cc = "het_current_nonstat"
    ∧ ((mu_sigma thW netNonstat ratesW true none).1 =
          .ok (muOf thW netNonstat ratesW none, sigmaOf thW netNonstat ratesW none)
      ∧ (mu_sigma thW netNonstat ratesW true none).2 = netNonstat
      ∧ muCCOf thW netNonstat = (fun _ => 0)
      ∧ sigma2CCOf thW netNonstat = (fun _ => 0)
      ∧ (integrate_siegert_python thW netNonstat ratesW).1 =
          .ok (rk4SpecTraj
            (fun z i => (PhiVal thW netNonstat z i - z i) /
              (thW.single_neuron_dict.tau_m * 1e-3))
            (thW.dt * 1e-3) (tLen thW - 1) ratesW)) :=
  ⟨rfl, c4_amended_silent_fallback 1 thW netNonstat ratesW none rfl⟩

/-- Claim C5, counterexample: a vector filter supplied without a matrix
filter is not rejected by any validation.  At this concrete input the
call passes the filter checks, performs the `mu_sigma` numeric work —
observable because the active override mutates the shared `K_matrix`
from `1` to `0` — and only then dies with the unrelated
`KeyError('V_th')`, not with the `AssertionError` that rejects the
opposite mismatch. -/
theorem c5_counterexample_vector_filter_not_rejected :
    (stability_matrix thW netHom ratesW none (some fun _ => true) false).1 =
      .error (.keyError "V_th")
    ∧ (stability_matrix thW netHom ratesW none (some fun _ => true) false).2.K_matrix 0 0 = 0
    ∧ netHom.K_matrix 0 0 = 1
    ∧ Err.keyError "V_th" ≠ Err.assertionError :=
  ⟨rfl, rfl, rfl, by decide⟩

/-- Claim C5, amended: only one direction of the filter mismatch is
rejected.  A matrix filter without a vector filter fails fast with
`AssertionError` before any computation, leaving the state untouched; a
vector filter without a matrix filter passes validation and proceeds into
the numeric computation, which (for any nonempty model) then fails with
the unrelated `KeyError('V_th')` that every `stability_matrix` run
hits. -/
theorem c5_amended_one_sided_validation :
    (∀ (n : ℕ) (th : TheoryCtx n) (net : Net n) (rates : Fin n → ℝ)
        (mf : Fin n → Fin (n + 1) → Bool) (full_output : Bool),
        stability_matrix th net rates (some mf) none full_output =
          (.error .assertionError, net))
    ∧ (∀ (n : ℕ) (th : TheoryCtx (n + 1)) (net : Net (n + 1)) (rates : Fin (n + 1) → ℝ)
        (vf : Fin (n + 1) → Bool) (full_output : Bool),
        (stability_matrix th net rates none (some vf) full_output).1 =
          .error (.keyError "V_th")) :=
  ⟨fun _ _ _ _ _ _ => rfl, fun _ _ _ _ _ _ => rfl⟩

/-- Claim C6 (code bug): the full-output path of `lambda_max` cannot
succeed.  `stability_matrix(..., full_output=True)` returns the
nine-value tuple `(M, slope, slope_sigma, M, C, V, G_N, J, N_pre)` while
`lambda_max` unpacks eight names
`(M, slope, slope_sigma, M, EV, C, V, G_N)` — a structural mismatch that
would raise `ValueError` and misalign every diagnostic field after the
fourth; at run time the call already fails earlier with the
`KeyError('V_th')` inside `stability_matrix`. -/
theorem c6_lambda_max_full_output_mismatch (n : ℕ) (th : TheoryCtx (n + 1))
    (net : Net (n + 1)) (rates : Fin (n + 1) → ℝ) :
    (lambda_max th net rates none none true).1 = .error (.keyError "V_th")
    ∧ (∀ (m : ℕ) (M : Fin m → Fin m → ℝ) (slope slope_sigma : Fin m → ℝ)
        (C V G_N J N_pre : Fin m → Fin m → ℝ),
        (stabilityFullVals M slope slope_sigma C V G_N J N_pre).length = 9
        ∧ lambdaUnpack (stabilityFullVals M slope slope_sigma C V G_N J N_pre) =
            .error (.valueError "unpack")) :=
  ⟨rfl, fun _ _ _ _ _ _ _ _ _ => ⟨rfl, rfl⟩⟩

/-- Claim C7 (confirmed): with the cortico-cortical override disabled
(the configuration under which `Phi` is a pure function of the rates),
`integrate_siegert_python` advances the state by the explicit 4th-order
Runge-Kutta scheme for `dν/dt = (Φ(ν) − ν)/τ_m`: with
`f(y) = (Φ(y) − y)/τ` (`τ = tau_m·1e-3`, i.e. `τ_m` in seconds) and step
`h = dt·1e-3` (`dt` in seconds) it computes `k1 = f(yᵢ)`,
`k2 = f(yᵢ + (h/2)k1)`, `k3 = f(yᵢ + (h/2)k2)`, `k4 = f(yᵢ + h·k3)` and
`yᵢ₊₁ = yᵢ + (h/6)(k1 + 2k2 + 2k3 + k4)`, for every step of the
`len(arange(0, T, dt)) - 1` loop iterations; for positive `dt`, `T` the
trajectory has exactly `⌈T/dt⌉` entries.  The third conjunct ties `Φ` to
the code's `Phi` with `return_leak=False`. -/
theorem c7_integrate_siegert_python_is_rk4 (n : ℕ) (th : TheoryCtx n) (net : Net n)
    (y0 : Fin n → ℝ) (hcc : isOverride net = false) :
    integrate_siegert_python th net y0 =
      (.ok (rk4SpecTraj
        (fun z i => (PhiVal th net z i - z i) / (th.single_neuron_dict.tau_m * 1e-3))
        (th.dt * 1e-3) (tLen th - 1) y0), net)
    ∧ (0 < th.dt → 0 < th.T →
        (rk4SpecTraj
          (fun z i => (PhiVal th net z i - z i) / (th.single_neuron_dict.tau_m * 1e-3))
          (th.dt * 1e-3) (tLen th - 1) y0).length = tLen th)
    ∧ (∀ z : Fin n → ℝ, (Phi th net z false false).1 = .ok (PhiVal th net z, none)) := by
  refine ⟨?_, ?_, fun z => rfl⟩
  · rw [integrate_siegert_python, rk4Traj_off hcc]
  · intro hdt hT
    rw [rk4SpecTraj_length]
    have hpos : 0 < tLen th := Nat.ceil_pos.mpr (div_pos hT hdt)
    omega

/-- Witness for claim C7 at a concrete override-free configuration. -/
theorem c7_integrate_siegert_python_is_rk4_witness :
    isOverride netOff = false
    ∧ (integrate_siegert_python thW netOff ratesW =
        (.ok (rk4SpecTraj
          (fun z i => (PhiVal thW netOff z i - z i) /
            (thW.single_neuron_dict.tau_m * 1e-3))
          (thW.dt * 1e-3) (tLen thW - 1) ratesW), netOff)
      ∧ (0 < thW.dt → 0 < thW.T →
          (rk4SpecTraj
            (fun z i => (PhiVal thW netOff z i - z i) /
              (thW.single_neuron_dict.tau_m * 1e-3))
            (thW.dt * 1e-3) (tLen thW - 1) ratesW).length = tLen thW)
      ∧ (∀ z : Fin 1 → ℝ, (Phi thW netOff z false false).1 = .ok (PhiVal thW netOff z, none))) :=
  ⟨rfl, c7_integrate_siegert_python_is_rk4 1 thW netOff ratesW rfl⟩

/-- Claim C8, counterexample: the claimed formula
`C[i,j] = 1 − (1 − 1/(N_i·N_j))^(K[i,j]·N_j)` disagrees with the code.
With `N = [1, 2]` and `K[0,1] = 1` the code computes
`1 − (1 − 1/2)^(1·N_0) = 1/2` while the claimed formula gives
`1 − (1 − 1/2)^(1·N_1) = 3/4`: the exponent uses the target (row)
population size `N_i`, not the source size `N_j`. -/
theorem c8_counterexample_exponent_uses_target_size :
    connProb N8 K8 0 1 = 1 / 2 ∧ connProbSpec N8 K8 0 1 = 3 / 4
    ∧ connProb N8 K8 0 1 ≠ connProbSpec N8 K8 0 1 := by
  have h1 : connProb N8 K8 0 1 = 1 / 2 := by
    unfold connProb N8 K8
    norm_num
  have h2 : connProbSpec N8 K8 0 1 = 3 / 4 := by
    unfold connProbSpec N8 K8
    norm_num
  exact ⟨h1, h2, by rw [h1, h2]; norm_num⟩

/-- Claim C8, amended: for positive population sizes the code's pairwise
connection probability is
`C[i,j] = 1 − (1 − 1/(N_i·N_j))^(K[i,j]·N_i)` (exponent scaled by the
target population size `N_i`); consequently `C[i,j] = 0` when
`K[i,j] = 0`, and, whenever `N_i·N_j > 1`, `C[i,j]` tends to `1` as the
in-degree grows without bound (saturation). -/
theorem c8_amended_connection_probability {m : ℕ} (N : Fin m → ℝ) (K : Fin m → Fin m → ℝ)
    (i j : Fin m) (hNi : 0 < N i) (hNj : 0 < N j) :
    connProb N K i j = 1 - (1 - 1 / (N i * N j)) ^ (K i j * N i)
    ∧ (K i j = 0 → connProb N K i j = 0)
    ∧ (1 < N i * N j →
        Filter.Tendsto (fun t : ℝ => 1 - (1 - 1 / (N i * N j)) ^ (t * N i))
          Filter.atTop (nhds 1)) := by
  refine ⟨?_, ?_, ?_⟩
  · unfold connProb
    rw [mul_comm (N j) (N i)]
  · intro hK
    unfold connProb
    rw [hK, zero_mul, Real.rpow_zero]
    ring
  · intro h1
    have h0 : 0 < N i * N j := mul_pos hNi hNj
    have hb1 : 1 - 1 / (N i * N j) < 1 := by
      have hp : 0 < 1 / (N i * N j) := by positivity
      linarith
    have hb0 : (-1 : ℝ) < 1 - 1 / (N i * N j) := by
      have hlt : 1 / (N i * N j) < 1 := (div_lt_one h0).mpr h1
      linarith
    have hexp : Filter.Tendsto (fun t : ℝ => t * N i) Filter.atTop Filter.atTop :=
      Filter.tendsto_id.atTop_mul_const hNi
    have hcomp : Filter.Tendsto (fun t : ℝ => (1 - 1 / (N i * N j)) ^ (t * N i))
        Filter.atTop (nhds 0) :=
      (tendsto_rpow_atTop_of_base_lt_one _ hb0 hb1).comp hexp
    simpa using tendsto_const_nhds.sub hcomp

/-- Witness for the amended claim C8 at concrete positive sizes. -/
theorem c8_amended_connection_probability_witness :
    0 < N8w 0 ∧ 0 < N8w 1
    ∧ (connProb N8w K8 0 1 = 1 - (1 - 1 / (N8w 0 * N8w 1)) ^ (K8 0 1 * N8w 0)
      ∧ (K8 0 1 = 0 → connProb N8w K8 0 1 = 0)
      ∧ (1 < N8w 0 * N8w 1 →
          Filter.Tendsto (fun t : ℝ => 1 - (1 - 1 / (N8w 0 * N8w 1)) ^ (t * N8w 0))
            Filter.atTop (nhds 1))) :=
  ⟨by norm_num [N8w], by norm_num [N8w],
    c8_amended_connection_probability N8w K8 0 1 (by norm_num [N8w]) (by norm_num [N8w])⟩

/-- Claim C9 (confirmed): `initial_rates` is a deterministic function of
`(num_iter, dim, rate_max, rng_seed)` — the generator seeds the global
random state before drawing, so the produced sequence does not depend on
whatever generator state was current before the call; two runs with the
same arguments (from arbitrary prior states `s0`, `s1`) yield identical
sequences of `num_iter` vectors, each of length `dim` with entries in
`[0, rate_max)`. -/
theorem c9_initial_rates_deterministic {S : Type} (R : NumpyRandom S) (s0 s1 : S)
    (num_iter dim : ℕ) (rate_max : ℝ) (rng_seed : ℕ) (hrm : 0 < rate_max) :
    initial_rates R s0 num_iter dim rate_max rng_seed
        = initial_rates R s1 num_iter dim rate_max rng_seed
    ∧ (initial_rates R s0 num_iter dim rate_max rng_seed).length = num_iter
    ∧ ∀ v ∈ initial_rates R s0 num_iter dim rate_max rng_seed,
        v.length = dim ∧ ∀ x ∈ v, 0 ≤ x ∧ x < rate_max := by
  refine ⟨rfl, ?_, ?_⟩
  · exact (initialRatesFrom_spec R dim rate_max hrm num_iter (R.seed rng_seed)).1
  · exact (initialRatesFrom_spec R dim rate_max hrm num_iter (R.seed rng_seed)).2

/-- Witness for claim C9 at a concrete generator and arguments. -/
theorem c9_initial_rates_deterministic_witness :
    0 < (5 : ℝ)
    ∧ (initial_rates R9 0 2 3 (5 : ℝ) 123 = initial_rates R9 1 2 3 (5 : ℝ) 123
      ∧ (initial_rates R9 0 2 3 (5 : ℝ) 123).length = 2
      ∧ ∀ v ∈ initial_rates R9 0 2 3 (5 : ℝ) 123,
          v.length = 3 ∧ ∀ x ∈ v, 0 ≤ x ∧ x < 5) :=
  ⟨by norm_num, c9_initial_rates_deterministic R9 0 1 2 3 5 123 (by norm_num)⟩

/-- Claim C10 (confirmed): with `return_leak=True` (the default) `Phi`
returns the drift `Φ(ν) − ν`, i.e. the `return_leak=False` value minus
the input rates; with `return_leak=False` it returns `Φ(ν)` itself — the
transfer function `nu0_fb` applied population-wise to the `(mu, sigma)`
pair produced by `mu_sigma` — and with `return_mu_sigma=True` it
additionally returns exactly that `(mu, sigma)` pair. -/
theorem c10_Phi_return_flags (n : ℕ) (th : TheoryCtx n) (net : Net n)
    (rates : Fin n → ℝ) (ms : Bool) :
    (Phi th net rates ms true).1 =
      ((Phi th net rates ms false).1).map (fun p => ((fun i => p.1 i - rates i), p.2))
    ∧ (Phi th net rates ms false).1 =
      ((mu_sigma th net rates true none).1).map (fun q =>
        ((fun i => th.nu0_fb (q.1 i) (q.2 i) (th.single_neuron_dict.tau_m * 1e-3)
            (th.single_neuron_dict.tau_syn_ex * 1e-3) (th.single_neuron_dict.t_ref * 1e-3)
            (th.single_neuron_dict.V_th - th.single_neuron_dict.E_L)
            (th.single_neuron_dict.V_reset - th.single_neuron_dict.E_L)),
          if ms then some (q.1, q.2) else none)) :=
  ⟨rfl, rfl⟩

end

end MAM
